import Mathlib

/-!
Verification of the command-bus / listener-registry core of
musicbee-media-controls (the `handler` crate).

The embedding models, from the source:

* `Command` and `Command.handle` from `src/handler/src/messages.rs`
  (the dispatch arms of `Command::handle` and the receive loop
  `Messages::listen_until_exit`);
* the listener registry `List` and its `Listener` implementation from
  `src/handler/src/listener/mod.rs` (`metadata`, `volume`,
  `playback_inner`, `attach`, `detach`, `attached`, plus the provided
  trait methods `playback` and `attach_and_update`);
* the two `Controls` attach/detach implementations from
  `src/handler/src/media_controls.rs` (error-returning) and
  `src/handler/src/listener/media_controls.rs` (assertion-based).

Individual backend listeners are abstracted as `Member`: a name, the
`attached` flag required by the `Listener` trait, and one flag per
operation saying whether that operation fails when invoked (modelling a
backend returning `Err`).  Every registry/dispatcher operation returns
the list of member states after the call together with the sequence of
listener method invocations it performed (`Event`s), mirroring the
`&mut` iteration of the Rust code; `?`-propagation is modelled by an
`Option String` error slot that aborts the remaining sequence.

`f64` values (volume) are modelled by an abstract scalar carrier,
since none of the modelled code computes on them; `Duration` is
milliseconds as `Nat`.
-/

namespace Mbmc

/-- Scalar carrier standing in for `f64` volume values; the modelled code
only moves volumes around, never computes with them. -/
abbrev Volume := Int

/-- Playback state, from `souvlaki::MediaPlayback` as used by the handler:
`Stopped`, `Paused { progress }`, `Playing { progress }` with an optional
position in milliseconds. -/
inductive MediaPlayback where
  | stopped : MediaPlayback
  | paused (progress : Option Nat) : MediaPlayback
  | playing (progress : Option Nat) : MediaPlayback
deriving DecidableEq

/-- Owned metadata, from `OwnedMetadata` in `src/handler/src/messages.rs`:
title, album, artist, optional cover url, optional duration (millis). -/
structure OwnedMetadata where
  title : Option String
  album : Option String
  artist : Option String
  cover_url : Option String
  duration : Option Nat
deriving DecidableEq

/-- Opaque payload of `Command::MediaControlEvent`; the bus forwards these
without interpreting them, so only distinguishability matters here. -/
inductive MCEvent where
  | play | pause | toggle | next | previous | stop | other
deriving DecidableEq

/-- The command alphabet, from `enum Command` in
`src/handler/src/messages.rs`. -/
inductive Command where
  | exit : Command
  | playback (p : MediaPlayback) : Command
  | metadata (m : OwnedMetadata) : Command
  | volume (v : Volume) : Command
  | attached (b : Bool) : Command
  | pluginActivated (b : Bool) : Command
  | update : Command
  | updateMetadata : Command
  | updatePlayback : Command
  | updateVolume : Command
  | updatePluginActivation : Command
  | mediaControlEvent (e : MCEvent) : Command
deriving DecidableEq

/-- An abstract backend listener held by the registry.  `attached` is the
lifecycle flag exposed through `Listener::attached`; the `fail*` flags
script whether the corresponding trait method returns an error when the
registry invokes it. -/
structure Member where
  name : String
  attached : Bool
  failMetadata : Bool
  failVolume : Bool
  failPlayback : Bool
  failAttach : Bool
  failDetach : Bool
deriving DecidableEq

/-- A listener method invocation observed by a member, tagged with the
member's name. -/
inductive Event where
  | attach (name : String) : Event
  | detach (name : String) : Event
  | metadata (name : String) (md : OwnedMetadata) : Event
  | playbackInner (name : String) (p : MediaPlayback) : Event
  | volume (name : String) (v : Volume) : Event
deriving DecidableEq

/-- Name of the member an event was delivered to. -/
def Event.memberName : Event → String
  | .attach n => n
  | .detach n => n
  | .metadata n _ => n
  | .playbackInner n _ => n
  | .volume n _ => n

/-- Number of occurrences of one concrete event in a trace. -/
def countEv (e₀ : Event) (evs : List Event) : Nat :=
  evs.countP (fun e => decide (e = e₀))

/-- Recognizer for attach events, used to state attach-freedom of traces. -/
def isAttachEv : Event → Bool
  | .attach _ => true
  | _ => false

/-- The calls a given member observes, in order, within a trace. -/
def memberCalls (n : String) (evs : List Event) : List Event :=
  evs.filter (fun e => decide (e.memberName = n))

/-- The configuration fields consulted by the modelled code, from
`src/handler/src/config.rs`. -/
structure Config where
  detach_on_stop : Bool
  exit_with_plugin : Bool
deriving DecidableEq

/-- Parsed contents of the communication files read by
`src/handler/src/filesystem.rs`; `none` models an empty (or, for
playback, `loading`) file, for which the update functions send nothing. -/
structure FsState where
  metadata : Option OwnedMetadata
  playback : Option MediaPlayback
  volume : Option Volume
  pluginActivated : Option Bool
deriving DecidableEq

/-- Result of a registry fan-out call: member states after the call, the
listener invocations performed, and the error (if any) that aborted the
iteration, modelling Rust `?` propagation out of the loop. -/
structure Fanout where
  members : List Member
  events : List Event
  err : Option String
deriving DecidableEq

namespace Registry

/-- Registry fan-out of a metadata update, from `List::metadata` in
`src/handler/src/listener/mod.rs`: every member's `metadata` is called in
order; an error aborts the remaining members. -/
def metadata : List Member → OwnedMetadata → Fanout
  | [], _ => ⟨[], [], none⟩
  | m :: rest, md =>
    if m.failMetadata then
      ⟨m :: rest, [.metadata m.name md], some ("failed to set metadata: " ++ m.name)⟩
    else
      let r := metadata rest md
      ⟨m :: r.members, .metadata m.name md :: r.events, r.err⟩

/-- Registry fan-out of a volume update, from `List::volume`. -/
def volume : List Member → Volume → Fanout
  | [], _ => ⟨[], [], none⟩
  | m :: rest, v =>
    if m.failVolume then
      ⟨m :: rest, [.volume m.name v], some ("failed to set volume: " ++ m.name)⟩
    else
      let r := volume rest v
      ⟨m :: r.members, .volume m.name v :: r.events, r.err⟩

/-- Registry fan-out of a playback update without lifecycle policy, from
`List::playback_inner`. -/
def playback_inner : List Member → MediaPlayback → Fanout
  | [], _ => ⟨[], [], none⟩
  | m :: rest, p =>
    if m.failPlayback then
      ⟨m :: rest, [.playbackInner m.name p], some ("failed to set playback: " ++ m.name)⟩
    else
      let r := playback_inner rest p
      ⟨m :: r.members, .playbackInner m.name p :: r.events, r.err⟩

/-- Registry attach, from `List::attach`: members already attached are
skipped; each other member's `attach` is called, a failure leaving that
member unchanged and aborting the iteration. -/
def attach : List Member → Fanout
  | [] => ⟨[], [], none⟩
  | m :: rest =>
    if m.attached then
      let r := attach rest
      ⟨m :: r.members, r.events, r.err⟩
    else if m.failAttach then
      ⟨m :: rest, [.attach m.name], some ("failed to attach: " ++ m.name)⟩
    else
      let r := attach rest
      ⟨{ m with attached := true } :: r.members, .attach m.name :: r.events, r.err⟩

/-- Registry detach, from `List::detach`: members already detached are
skipped; each other member's `detach` is called, a failure leaving that
member unchanged and aborting the iteration. -/
def detach : List Member → Fanout
  | [] => ⟨[], [], none⟩
  | m :: rest =>
    if m.attached then
      if m.failDetach then
        ⟨m :: rest, [.detach m.name], some ("failed to detach: " ++ m.name)⟩
      else
        let r := detach rest
        ⟨{ m with attached := false } :: r.members, .detach m.name :: r.events, r.err⟩
    else
      let r := detach rest
      ⟨m :: r.members, r.events, r.err⟩

/-- Aggregate lifecycle query, from `List::attached`: the conjunction of
all members' `attached` flags, recomputed from the member list (the Rust
`List` struct holds only the listener vector, no cached flag). -/
def attached (ms : List Member) : Bool :=
  ms.all (fun m => m.attached)

end Registry

/-- An empty registry, from `List::new` (`#[derive(Default)]` on a struct
holding a `Vec`), which starts with no listeners. -/
def Registry.new : List Member := []

/-- Modelled from the spec: the synchronous `filesystem::update(listener,
config)` invoked by `Listener::attach_and_update` in
`src/handler/src/listener/mod.rs` is not present under `src/` (only the
command-sending async variant in `src/handler/src/filesystem.rs` is).
Per the spec's `RefreshRequested` contract it re-delivers the cached
metadata, playback and volume — skipping empty files, as the async
variant does — to the listener through its plain setters, in the
metadata, playback, volume order of the spec's refresh scenario. -/
def Filesystem.update (fs : FsState) (ms : List Member) : Fanout :=
  let f1 := match fs.metadata with
            | some md => Registry.metadata ms md
            | none => ⟨ms, [], none⟩
  match f1.err with
  | some _ => f1
  | none =>
    let f2 := match fs.playback with
              | some p => Registry.playback_inner f1.members p
              | none => ⟨f1.members, [], none⟩
    match f2.err with
    | some _ => ⟨f2.members, f1.events ++ f2.events, f2.err⟩
    | none =>
      let f3 := match fs.volume with
                | some v => Registry.volume f2.members v
                | none => ⟨f2.members, [], none⟩
      ⟨f3.members, f1.events ++ (f2.events ++ f3.events), f3.err⟩

/-- Registry attach-then-refresh, from the provided trait method
`Listener::attach_and_update` in `src/handler/src/listener/mod.rs`:
`self.attach()?` followed by `filesystem::update(self, config)?`. -/
def Registry.attach_and_update (fs : FsState) (ms : List Member) : Fanout :=
  let a := Registry.attach ms
  match a.err with
  | some _ => a
  | none =>
    let u := Filesystem.update fs a.members
    ⟨u.members, a.events ++ u.events, u.err⟩

/-- Registry playback with the detach-on-stop lifecycle policy, from the
provided trait method `Listener::playback` in
`src/handler/src/listener/mod.rs`: with `detach_on_stop` set, `Stopped`
while the aggregate is attached first detaches, and `Playing` while the
aggregate is detached first attaches-and-updates; every other case (in
particular `Paused`) falls through; then the state is forwarded through
`playback_inner`. -/
def Registry.playback (cfg : Config) (fs : FsState) (ms : List Member)
    (p : MediaPlayback) : Fanout :=
  if cfg.detach_on_stop then
    match p with
    | .stopped =>
      if Registry.attached ms then
        let d := Registry.detach ms
        match d.err with
        | some _ => d
        | none =>
          let i := Registry.playback_inner d.members .stopped
          ⟨i.members, d.events ++ i.events, i.err⟩
      else Registry.playback_inner ms .stopped
    | .playing pos =>
      if Registry.attached ms then Registry.playback_inner ms (.playing pos)
      else
        let a := Registry.attach_and_update fs ms
        match a.err with
        | some _ => a
        | none =>
          let i := Registry.playback_inner a.members (.playing pos)
          ⟨i.members, a.events ++ i.events, i.err⟩
    | .paused pos => Registry.playback_inner ms (.paused pos)
  else Registry.playback_inner ms p

/-- Result of one `Command::handle` call in `src/handler/src/messages.rs`:
member states after the call, the listener invocations performed, the
commands the handler sent back onto the channel through `tx`, and the
error (if any) returned to the dispatch loop. -/
structure StepResult where
  members : List Member
  events : List Event
  sent : List Command
  err : Option String
deriving DecidableEq

/-- Commands sent by the async `filesystem::update(tx, config)` in
`src/handler/src/filesystem.rs`: a metadata, playback and volume command
for each non-empty communication file (the source joins the three reads
concurrently; they are listed here in the order of the join macro). -/
def fsCommands (fs : FsState) : List Command :=
  (fs.metadata.map Command.metadata).toList
    ++ (fs.playback.map Command.playback).toList
    ++ (fs.volume.map Command.volume).toList

/-- One dispatch step, from `Command::handle` in
`src/handler/src/messages.rs`.  The `Attached` arms are guarded by the
aggregate `listener.attached()` computed on entry; `Attached(true)` on a
not-fully-attached registry attaches and then sends `Update`;
`PluginActivated` routes to `Exit` or an `Attached` command; the
`Update*` arms re-read the communication files and send the resulting
state commands; `Exit` does nothing (the loop breaks before handling
it).  In this snapshot the detach-on-stop policy is applied by the
handler itself, which queues `Attached` commands after forwarding a
playback change, so `listener.playback` is the plain fan-out. -/
def Command.handle (cfg : Config) (fs : FsState) (ms : List Member) :
    Command → StepResult
  | .exit => ⟨ms, [], [], none⟩
  | .metadata md =>
    let f := Registry.metadata ms md
    ⟨f.members, f.events, [], f.err⟩
  | .playback p =>
    let f := Registry.playback_inner ms p
    match f.err with
    | some e => ⟨f.members, f.events, [], some e⟩
    | none =>
      ⟨f.members, f.events,
        if cfg.detach_on_stop then
          match p with
          | .stopped => [Command.attached false]
          | _ => [Command.attached true]
        else [], none⟩
  | .volume v =>
    let f := Registry.volume ms v
    ⟨f.members, f.events, [], f.err⟩
  | .attached b =>
    if b then
      if Registry.attached ms then ⟨ms, [], [], none⟩
      else
        let f := Registry.attach ms
        match f.err with
        | some e => ⟨f.members, f.events, [], some e⟩
        | none => ⟨f.members, f.events, [Command.update], none⟩
    else
      if Registry.attached ms then
        let f := Registry.detach ms
        ⟨f.members, f.events, [], f.err⟩
      else ⟨ms, [], [], none⟩
  | .pluginActivated b =>
    if !b && cfg.exit_with_plugin then ⟨ms, [], [Command.exit], none⟩
    else ⟨ms, [], [Command.attached b], none⟩
  | .update => ⟨ms, [], fsCommands fs, none⟩
  | .updateMetadata => ⟨ms, [], (fs.metadata.map Command.metadata).toList, none⟩
  | .updatePlayback => ⟨ms, [], (fs.playback.map Command.playback).toList, none⟩
  | .updateVolume => ⟨ms, [], (fs.volume.map Command.volume).toList, none⟩
  | .updatePluginActivation =>
    ⟨ms, [], (fs.pluginActivated.map Command.pluginActivated).toList, none⟩
  | .mediaControlEvent _ => ⟨ms, [], [], none⟩

/-- Result of running the dispatch loop: final member states, the full
trace of listener invocations, and the errors logged by the loop. -/
structure RunResult where
  members : List Member
  events : List Event
  log : List String
deriving DecidableEq

/-- The dispatch loop, from `Messages::listen_until_exit` in
`src/handler/src/messages.rs`: receive commands in FIFO order; on
`Command::Exit` break immediately (before handling); otherwise handle
the command, log its error if any, append the commands it sent to the
back of the queue, and continue.  `fuel` bounds the number of handled
commands so the model is total; running out of fuel returns like an
empty queue. -/
def listen_until_exit (cfg : Config) (fs : FsState) :
    List Member → List Command → Nat → RunResult
  | ms, [], _ => ⟨ms, [], []⟩
  | ms, _ :: _, 0 => ⟨ms, [], []⟩
  | ms, c :: q, fuel + 1 =>
    if c = Command.exit then ⟨ms, [], []⟩
    else
      let s := Command.handle cfg fs ms c
      let r := listen_until_exit cfg fs s.members (q ++ s.sent) fuel
      ⟨r.members, s.events ++ r.events, s.err.toList ++ r.log⟩

/-- Sequential handling of a block of commands without touching the
queue: the member states after the block, the concatenated event trace,
the commands sent back to the channel, and the errors logged.  This is
the denotation of a queue prefix of the dispatch loop. -/
def processPrefix (cfg : Config) (fs : FsState) :
    List Member → List Command → RunResult × List Command
  | ms, [] => (⟨ms, [], []⟩, [])
  | ms, c :: cs =>
    let s := Command.handle cfg fs ms c
    let r := processPrefix cfg fs s.members cs
    (⟨r.1.members, s.events ++ r.1.events, s.err.toList ++ r.1.log⟩, s.sent ++ r.2)

/-- Sequential delivery of a list of playback changes through the
policy-applying `Registry.playback`, continuing past errors as the
dispatch loop does; returns the final members and the whole trace. -/
def playbackSeq (cfg : Config) (fs : FsState) :
    List Member → List MediaPlayback → List Member × List Event
  | ms, [] => (ms, [])
  | ms, p :: ps =>
    let f := Registry.playback cfg fs ms p
    let r := playbackSeq cfg fs f.members ps
    (r.1, f.events ++ r.2)

/-- A configuration with both policies enabled, the source defaults. -/
def cfgDS : Config := ⟨true, true⟩

/-- A sample attached member with no scripted failures. -/
def mAtt : Member := ⟨"a", true, false, false, false, false, false⟩

/-- A sample detached member with no scripted failures. -/
def mDet : Member := ⟨"b", false, false, false, false, false, false⟩

/-- A sample attached member whose `metadata` call fails. -/
def mFailMeta : Member := ⟨"c", true, true, false, false, false, false⟩

/-- A sample metadata value. -/
def mdSong : OwnedMetadata := ⟨some "Song", none, none, none, none⟩

/-- A sample communication-file state with all files populated. -/
def fsSample : FsState := ⟨some mdSong, some (.playing none), some 7, some true⟩

/-- A sample submitted command sequence. -/
def csW : List Command := [Command.metadata mdSong, Command.volume 7]

/-- Boolean recognizer for `Playing` playback states. -/
def isPlaying : MediaPlayback → Bool
  | .playing _ => true
  | _ => false

/-- Boolean recognizer for `Paused` playback states. -/
def isPaused : MediaPlayback → Bool
  | .paused _ => true
  | _ => false

/-- A member after a successful `attach`. -/
def setAtt (m : Member) : Member := { m with attached := true }

/-- A member after a successful `detach`. -/
def setDet (m : Member) : Member := { m with attached := false }

/-- The events delivered by the modelled refresh (`Filesystem.update`)
when no listener call fails: one metadata, playback and volume delivery
per member for each populated communication file. -/
def refreshEvents (fs : FsState) (ms : List Member) : List Event :=
  (match fs.metadata with
   | some md => ms.map (fun m => Event.metadata m.name md)
   | none => [])
    ++ ((match fs.playback with
         | some p => ms.map (fun m => Event.playbackInner m.name p)
         | none => [])
      ++ (match fs.volume with
          | some v => ms.map (fun m => Event.volume m.name v)
          | none => []))

/-- Errors of the standalone media-controls backend, from `ControlsError`
in `src/handler/src/media_controls.rs` (the `System` variant is omitted:
the underlying `souvlaki` calls are abstracted as succeeding). -/
inductive ControlsError where
  | alreadyAttached : ControlsError
  | alreadyDetached : ControlsError
deriving DecidableEq

/-- Outcome of a lifecycle call on a media-controls backend: a normal
return carrying the new `attached` flag, an error return carrying a
`ControlsError` and the (unchanged) flag, or a process-aborting panic
(a failed Rust `assert!`). -/
inductive CallOutcome where
  | ok (attached : Bool) : CallOutcome
  | err (e : ControlsError) (attached : Bool) : CallOutcome
  | aborted : CallOutcome
deriving DecidableEq

/-- `Controls::attach` from `src/handler/src/media_controls.rs`: returns
`Err(AlreadyAttached)` before any mutation when already attached,
otherwise attaches (the `souvlaki` attach and the follow-up
`filesystem::update` side effects are abstracted as succeeding). -/
def controlsAttach (attached : Bool) : CallOutcome :=
  if attached then .err .alreadyAttached attached else .ok true

/-- `Controls::detach` from `src/handler/src/media_controls.rs`: returns
`Err(AlreadyDetached)` before any mutation when already detached,
otherwise detaches. -/
def controlsDetach (attached : Bool) : CallOutcome :=
  if !attached then .err .alreadyDetached attached else .ok false

/-- `Controls::attach` from `src/handler/src/listener/media_controls.rs`:
`assert!(!self.attached, ..)` makes calling it while attached an
assertion failure (panic), not an error return. -/
def listenerControlsAttach (attached : Bool) : CallOutcome :=
  if attached then .aborted else .ok true

/-- `Controls::detach` from `src/handler/src/listener/media_controls.rs`:
`assert!(self.attached, ..)` makes calling it while detached an
assertion failure (panic), not an error return. -/
def listenerControlsDetach (attached : Bool) : CallOutcome :=
  if attached then .ok false else .aborted

@[simp] lemma setAtt_name (m : Member) : (setAtt m).name = m.name := rfl

@[simp] lemma setAtt_attached (m : Member) : (setAtt m).attached = true := rfl

@[simp] lemma setAtt_failMetadata (m : Member) : (setAtt m).failMetadata = m.failMetadata := rfl

@[simp] lemma setAtt_failVolume (m : Member) : (setAtt m).failVolume = m.failVolume := rfl

@[simp] lemma setAtt_failPlayback (m : Member) : (setAtt m).failPlayback = m.failPlayback := rfl

@[simp] lemma setAtt_failAttach (m : Member) : (setAtt m).failAttach = m.failAttach := rfl

@[simp] lemma setAtt_failDetach (m : Member) : (setAtt m).failDetach = m.failDetach := rfl

@[simp] lemma setDet_name (m : Member) : (setDet m).name = m.name := rfl

@[simp] lemma setDet_attached (m : Member) : (setDet m).attached = false := rfl

@[simp] lemma setDet_failMetadata (m : Member) : (setDet m).failMetadata = m.failMetadata := rfl

@[simp] lemma setDet_failVolume (m : Member) : (setDet m).failVolume = m.failVolume := rfl

@[simp] lemma setDet_failPlayback (m : Member) : (setDet m).failPlayback = m.failPlayback := rfl

@[simp] lemma setDet_failAttach (m : Member) : (setDet m).failAttach = m.failAttach := rfl

@[simp] lemma setDet_failDetach (m : Member) : (setDet m).failDetach = m.failDetach := rfl

lemma setAtt_of_attached {m : Member} (h : m.attached = true) : setAtt m = m := by
  cases m
  simp_all [setAtt]

lemma setDet_of_detached {m : Member} (h : m.attached = false) : setDet m = m := by
  cases m
  simp_all [setDet]

lemma Registry.metadata_eq (ms : List Member) (md : OwnedMetadata)
    (h : ∀ m ∈ ms, m.failMetadata = false) :
    Registry.metadata ms md
      = ⟨ms, ms.map (fun m => Event.metadata m.name md), none⟩ := by
  induction ms with
  | nil => rfl
  | cons m rest ih =>
    have hm : m.failMetadata = false := h m (by simp)
    have hrest : ∀ x ∈ rest, x.failMetadata = false := fun x hx => h x (by simp [hx])
    simp [Registry.metadata, hm, ih hrest]

lemma Registry.volume_eq (ms : List Member) (v : Volume)
    (h : ∀ m ∈ ms, m.failVolume = false) :
    Registry.volume ms v = ⟨ms, ms.map (fun m => Event.volume m.name v), none⟩ := by
  induction ms with
  | nil => rfl
  | cons m rest ih =>
    have hm : m.failVolume = false := h m (by simp)
    have hrest : ∀ x ∈ rest, x.failVolume = false := fun x hx => h x (by simp [hx])
    simp [Registry.volume, hm, ih hrest]

lemma Registry.playback_inner_eq (ms : List Member) (p : MediaPlayback)
    (h : ∀ m ∈ ms, m.failPlayback = false) :
    Registry.playback_inner ms p
      = ⟨ms, ms.map (fun m => Event.playbackInner m.name p), none⟩ := by
  induction ms with
  | nil => rfl
  | cons m rest ih =>
    have hm : m.failPlayback = false := h m (by simp)
    have hrest : ∀ x ∈ rest, x.failPlayback = false := fun x hx => h x (by simp [hx])
    simp [Registry.playback_inner, hm, ih hrest]

lemma Registry.playback_inner_members (ms : List Member) (p : MediaPlayback) :
    (Registry.playback_inner ms p).members = ms := by
  induction ms with
  | nil => rfl
  | cons m rest ih =>
    by_cases hm : m.failPlayback = true
    · simp [Registry.playback_inner, hm]
    · simp at hm
      simp [Registry.playback_inner, hm, ih]

lemma Registry.attach_eq (ms : List Member)
    (h : ∀ m ∈ ms, m.failAttach = false) :
    Registry.attach ms
      = ⟨ms.map setAtt,
         (ms.filter (fun m => !m.attached)).map (fun m => Event.attach m.name),
         none⟩ := by
  induction ms with
  | nil => rfl
  | cons m rest ih =>
    have hm : m.failAttach = false := h m (by simp)
    have hrest : ∀ x ∈ rest, x.failAttach = false := fun x hx => h x (by simp [hx])
    by_cases ha : m.attached = true
    · simp [Registry.attach, ha, ih hrest, List.filter_cons, setAtt_of_attached ha]
    · simp at ha
      simp [Registry.attach, ha, hm, ih hrest, List.filter_cons, setAtt]

lemma Registry.detach_eq (ms : List Member)
    (h : ∀ m ∈ ms, m.failDetach = false) :
    Registry.detach ms
      = ⟨ms.map setDet,
         (ms.filter (fun m => m.attached)).map (fun m => Event.detach m.name),
         none⟩ := by
  induction ms with
  | nil => rfl
  | cons m rest ih =>
    have hm : m.failDetach = false := h m (by simp)
    have hrest : ∀ x ∈ rest, x.failDetach = false := fun x hx => h x (by simp [hx])
    by_cases ha : m.attached = true
    · simp [Registry.detach, ha, hm, ih hrest, List.filter_cons, setDet]
    · simp at ha
      simp [Registry.detach, ha, ih hrest, List.filter_cons, setDet_of_detached ha]

lemma Registry.attached_iff (ms : List Member) :
    Registry.attached ms = true ↔ ∀ m ∈ ms, m.attached = true := by
  simp [Registry.attached, List.all_eq_true]

lemma Registry.attached_map_setAtt (ms : List Member) :
    Registry.attached (ms.map setAtt) = true := by
  rw [Registry.attached_iff]
  intro m hm
  obtain ⟨x, _, rfl⟩ := List.mem_map.mp hm
  simp

lemma countEv_tag_zero (g : String → Event) (n : String) (p : Member → Bool)
    (rest : List Member) (hg : ∀ a b : String, g a = g b → a = b)
    (h : n ∉ rest.map Member.name) :
    countEv (g n) ((rest.filter p).map (fun x => g x.name)) = 0 := by
  rw [countEv, List.countP_eq_zero]
  intro e he
  obtain ⟨y, hy, rfl⟩ := List.mem_map.mp he
  have hyr : y ∈ rest := List.mem_of_mem_filter hy
  have hne : y.name ≠ n := by
    intro hcontra
    exact h (hcontra ▸ List.mem_map_of_mem Member.name hyr)
  simp only [decide_eq_true_eq]
  intro hge
  exact hne (hg _ _ hge)

lemma countEv_cons_self (e : Event) (l : List Event) :
    countEv e (e :: l) = countEv e l + 1 := by
  simp [countEv, List.countP_cons]

lemma countEv_cons_ne {x e : Event} (h : x ≠ e) (l : List Event) :
    countEv e (x :: l) = countEv e l := by
  simp [countEv, List.countP_cons, h]

lemma countEv_tag_filter_map (g : String → Event) (p : Member → Bool)
    (ms : List Member) (m : Member) (hg : ∀ a b : String, g a = g b → a = b)
    (hnd : (ms.map Member.name).Nodup) (hm : m ∈ ms) :
    countEv (g m.name) ((ms.filter p).map (fun x => g x.name))
      = if p m then 1 else 0 := by
  induction ms with
  | nil => cases hm
  | cons x rest ih =>
    rw [List.map_cons, List.nodup_cons] at hnd
    rcases List.mem_cons.mp hm with hmx | hmrest
    · subst hmx
      have hz := countEv_tag_zero g m.name p rest hg hnd.1
      by_cases hp : p m = true
      · have hf : (m :: rest).filter p = m :: rest.filter p := by
          simp [List.filter_cons, hp]
        rw [hf, List.map_cons, countEv_cons_self, hz, hp]
        simp
      · simp at hp
        have hf : (m :: rest).filter p = rest.filter p := by
          simp [List.filter_cons, hp]
        rw [hf, hz, hp]
        simp
    · have hmn : m.name ∈ rest.map Member.name := List.mem_map_of_mem Member.name hmrest
      have hne : x.name ≠ m.name := fun hcontra => hnd.1 (hcontra ▸ hmn)
      have hgne : g x.name ≠ g m.name := fun hge => hne (hg _ _ hge)
      by_cases hp : p x = true
      · have hf : (x :: rest).filter p = x :: rest.filter p := by
          simp [List.filter_cons, hp]
        rw [hf, List.map_cons, countEv_cons_ne hgne]
        exact ih hnd.2 hmrest
      · simp at hp
        have hf : (x :: rest).filter p = rest.filter p := by
          simp [List.filter_cons, hp]
        rw [hf]
        exact ih hnd.2 hmrest

lemma countEv_tag_map_zero (g : String → Event) (e₀ : Event)
    (ms : List Member) (h : ∀ n : String, e₀ ≠ g n) :
    countEv e₀ (ms.map (fun x => g x.name)) = 0 := by
  rw [countEv, List.countP_eq_zero]
  intro e he
  obtain ⟨y, _, rfl⟩ := List.mem_map.mp he
  simp only [decide_eq_true_eq]
  exact fun hcontra => h y.name hcontra.symm

lemma countEv_append (e₀ : Event) (l₁ l₂ : List Event) :
    countEv e₀ (l₁ ++ l₂) = countEv e₀ l₁ + countEv e₀ l₂ :=
  List.countP_append _ _ _

lemma Registry.metadata_fail (pre : List Member) (m : Member) (rest : List Member)
    (md : OwnedMetadata) (hpre : ∀ x ∈ pre, x.failMetadata = false)
    (hm : m.failMetadata = true) :
    Registry.metadata (pre ++ m :: rest) md
      = ⟨pre ++ m :: rest,
         (pre.map (fun x => Event.metadata x.name md)) ++ [Event.metadata m.name md],
         some ("failed to set metadata: " ++ m.name)⟩ := by
  induction pre with
  | nil => simp [Registry.metadata, hm]
  | cons x pre ih =>
    have hx : x.failMetadata = false := hpre x (by simp)
    have hpre2 : ∀ y ∈ pre, y.failMetadata = false := fun y hy => hpre y (by simp [hy])
    simp [Registry.metadata, hx, ih hpre2]

lemma Filesystem.update_eq (fs : FsState) (ms : List Member)
    (h : ∀ m ∈ ms, m.failMetadata = false ∧ m.failPlayback = false ∧ m.failVolume = false) :
    Filesystem.update fs ms = ⟨ms, refreshEvents fs ms, none⟩ := by
  have hmd : ∀ m ∈ ms, m.failMetadata = false := fun m hm => (h m hm).1
  have hpb : ∀ m ∈ ms, m.failPlayback = false := fun m hm => (h m hm).2.1
  have hv : ∀ m ∈ ms, m.failVolume = false := fun m hm => (h m hm).2.2
  obtain ⟨omd, opb, ov, opa⟩ := fs
  cases omd <;> cases opb <;> cases ov <;>
    simp [Filesystem.update, refreshEvents,
      Registry.metadata_eq ms _ hmd, Registry.playback_inner_eq ms _ hpb,
      Registry.volume_eq ms _ hv]

lemma listen_append (cfg : Config) (fs : FsState) (cs : List Command) :
    ∀ (ms : List Member) (q : List Command) (fuel : Nat),
    Command.exit ∉ cs → cs.length ≤ fuel →
    listen_until_exit cfg fs ms (cs ++ q) fuel
      = ⟨(listen_until_exit cfg fs (processPrefix cfg fs ms cs).1.members
            (q ++ (processPrefix cfg fs ms cs).2) (fuel - cs.length)).members,
         (processPrefix cfg fs ms cs).1.events
           ++ (listen_until_exit cfg fs (processPrefix cfg fs ms cs).1.members
                 (q ++ (processPrefix cfg fs ms cs).2) (fuel - cs.length)).events,
         (processPrefix cfg fs ms cs).1.log
           ++ (listen_until_exit cfg fs (processPrefix cfg fs ms cs).1.members
                 (q ++ (processPrefix cfg fs ms cs).2) (fuel - cs.length)).log⟩ := by
  induction cs with
  | nil =>
    intro ms q fuel _ _
    simp [processPrefix]
  | cons c cs ih =>
    intro ms q fuel hexit hfuel
    have hc : c ≠ Command.exit := fun hcontra => hexit (by simp [hcontra])
    have hcs : Command.exit ∉ cs := fun hcontra => hexit (by simp [hcontra])
    cases fuel with
    | zero => simp at hfuel
    | succ f =>
      have hf : cs.length ≤ f := by
        simp at hfuel
        omega
      have hq : (cs ++ q) ++ (Command.handle cfg fs ms c).sent
          = cs ++ (q ++ (Command.handle cfg fs ms c).sent) := by
        rw [List.append_assoc]
      calc listen_until_exit cfg fs ms ((c :: cs) ++ q) (f + 1)
          = ⟨(listen_until_exit cfg fs (Command.handle cfg fs ms c).members
                ((cs ++ q) ++ (Command.handle cfg fs ms c).sent) f).members,
             (Command.handle cfg fs ms c).events
               ++ (listen_until_exit cfg fs (Command.handle cfg fs ms c).members
                     ((cs ++ q) ++ (Command.handle cfg fs ms c).sent) f).events,
             (Command.handle cfg fs ms c).err.toList
               ++ (listen_until_exit cfg fs (Command.handle cfg fs ms c).members
                     ((cs ++ q) ++ (Command.handle cfg fs ms c).sent) f).log⟩ := by
            simp [listen_until_exit, hc]
        _ = _ := by
            rw [hq, ih (Command.handle cfg fs ms c).members
                  (q ++ (Command.handle cfg fs ms c).sent) f hcs hf]
            simp [processPrefix, List.append_assoc, Nat.succ_sub_succ]

lemma Registry.playback_inner_no_attach (ms : List Member) (p : MediaPlayback) :
    (Registry.playback_inner ms p).events.countP isAttachEv = 0 := by
  induction ms with
  | nil => rfl
  | cons m rest ih =>
    by_cases hm : m.failPlayback = true
    · simp [Registry.playback_inner, hm, isAttachEv]
    · simp at hm
      simp [Registry.playback_inner, hm, List.countP_cons, isAttachEv, ih]

lemma Registry.detach_no_attach (ms : List Member) :
    (Registry.detach ms).events.countP isAttachEv = 0 := by
  induction ms with
  | nil => rfl
  | cons m rest ih =>
    by_cases ha : m.attached = true
    · by_cases hf : m.failDetach = true
      · simp [Registry.detach, ha, hf, isAttachEv]
      · simp at hf
        simp [Registry.detach, ha, hf, List.countP_cons, isAttachEv, ih]
    · simp at ha
      simp [Registry.detach, ha, ih]

lemma Registry.playback_no_attach_of_detached (cfg : Config) (fs : FsState)
    (ms : List Member) (p : MediaPlayback)
    (hdet : ∀ m ∈ ms, m.attached = false)
    (hnp : ∀ pos, p ≠ MediaPlayback.playing pos) :
    (Registry.playback cfg fs ms p).events.countP isAttachEv = 0
      ∧ ∀ m ∈ (Registry.playback cfg fs ms p).members, m.attached = false := by
  by_cases hds : cfg.detach_on_stop = true
  · cases p with
    | playing pos => exact absurd rfl (hnp pos)
    | paused pos =>
      constructor
      · simp [Registry.playback, hds, Registry.playback_inner_no_attach]
      · simp [Registry.playback, hds, Registry.playback_inner_members]
        exact hdet
    | stopped =>
      by_cases hatt : Registry.attached ms = true
      · have hnil : ms = [] := by
          rw [List.eq_nil_iff_forall_not_mem]
          intro m hm
          have h1 := (Registry.attached_iff ms).mp hatt m hm
          have h2 := hdet m hm
          rw [h1] at h2
          cases h2
        subst hnil
        constructor
        · simp [Registry.playback, hds, Registry.detach, Registry.playback_inner]
        · simp [Registry.playback, hds, Registry.detach, Registry.playback_inner]
      · simp at hatt
        constructor
        · simp [Registry.playback, hds, hatt, Registry.playback_inner_no_attach]
        · simp [Registry.playback, hds, hatt, Registry.playback_inner_members]
          exact hdet
  · simp at hds
    constructor
    · simp [Registry.playback, hds, Registry.playback_inner_no_attach]
    · simp [Registry.playback, hds, Registry.playback_inner_members]
      exact hdet

lemma playbackSeq_no_attach (cfg : Config) (fs : FsState) :
    ∀ (ps : List MediaPlayback) (ms : List Member),
    (∀ m ∈ ms, m.attached = false) →
    (∀ p ∈ ps, ∀ pos, p ≠ MediaPlayback.playing pos) →
    (playbackSeq cfg fs ms ps).2.countP isAttachEv = 0 := by
  intro ps
  induction ps with
  | nil => intro ms _ _; rfl
  | cons p ps ih =>
    intro ms hdet hnp
    have hp : ∀ pos, p ≠ MediaPlayback.playing pos := hnp p (by simp)
    have hstep := Registry.playback_no_attach_of_detached cfg fs ms p hdet hp
    have hrec := ih (Registry.playback cfg fs ms p).members hstep.2
      (fun x hx => hnp x (by simp [hx]))
    simp [playbackSeq, List.countP_append, hstep.1, hrec]

lemma ne_playing_of_isPlaying_false {p : MediaPlayback} (h : isPlaying p = false) :
    ∀ pos, p ≠ MediaPlayback.playing pos := by
  cases p <;> simp_all [isPlaying]

lemma Registry.playback_inner_countEv_detach (ms : List Member) (p : MediaPlayback)
    (n : String) :
    countEv (Event.detach n) (Registry.playback_inner ms p).events = 0 := by
  induction ms with
  | nil => rfl
  | cons m rest ih =>
    by_cases hm : m.failPlayback = true
    · simp [Registry.playback_inner, hm, countEv, List.countP_cons]
    · simp at hm
      simp only [Registry.playback_inner, hm, Bool.false_eq_true, if_false]
      rw [countEv_cons_ne (by simp) _]
      exact ih

lemma handle_detach_events_nil (cfg : Config) (fs : FsState) (ms : List Member)
    (h : ∀ m ∈ ms, m.attached = false) :
    (Command.handle cfg fs ms (Command.attached false)).events = [] := by
  by_cases hatt : Registry.attached ms = true
  · have hnil : ms = [] := by
      rw [List.eq_nil_iff_forall_not_mem]
      intro m hm
      have h1 := (Registry.attached_iff ms).mp hatt m hm
      have h2 := h m hm
      rw [h1] at h2
      cases h2
    subst hnil
    simp [Command.handle, Registry.attached, Registry.detach]
  · simp at hatt
    simp [Command.handle, hatt]

/-- C1 counterexample: a registry with one attached member, delivered
`Exit`.  The claim requires exactly one `detach()` call on that member
before the dispatcher returns; the dispatch loop breaks before handling
`Exit` (and the `Exit` arm of `Command::handle` is empty), so the member
receives zero detach calls. -/
theorem exit_skips_detach_cx :
    Registry.attached [mAtt] = true
      ∧ ¬ countEv (Event.detach "a")
          (listen_until_exit cfgDS fsSample [mAtt] [Command.exit] 1).events = 1 := by
  decide

/-- C1 (amended): delivering `Exit` makes the dispatch loop return
immediately: no `detach()` (indeed no listener call at all) is
performed, nothing is logged, and every member keeps its attach state. -/
theorem exit_returns_immediately (cfg : Config) (fs : FsState) (ms : List Member)
    (q : List Command) (fuel : Nat) :
    listen_until_exit cfg fs ms (Command.exit :: q) fuel
      = ⟨ms, [], []⟩ := by
  cases fuel with
  | zero => rfl
  | succ f => simp [listen_until_exit]

/-- C4: the registry's `attached()` is the conjunction of the members'
attached flags — it is true iff every member reports attached — and
flipping any single member to detached makes the aggregate false.  It is
recomputed from the member list on every call (the Rust `List` struct
holds only the listener vector, no cached flag). -/
theorem registry_attached_iff_all (ms : List Member) :
    (Registry.attached ms = true ↔ ∀ m ∈ ms, m.attached = true)
      ∧ ∀ (pre post : List Member) (m : Member),
          Registry.attached (pre ++ setDet m :: post) = false := by
  refine ⟨Registry.attached_iff ms, ?_⟩
  intro pre post m
  simp [Registry.attached]

/-- C8: routing of the source-availability signal, from the
`PluginActivated` arm of `Command::handle`: `false` with
`exit_with_plugin` set emits `Exit`; `false` otherwise emits
`Attached(false)`; `true` emits `Attached(true)`.  No listener call is
made by the arm itself. -/
theorem plugin_activation_routing (cfg : Config) (fs : FsState) (ms : List Member) :
    (Command.handle cfg fs ms (.pluginActivated false)).sent
        = (if cfg.exit_with_plugin then [Command.exit] else [Command.attached false])
      ∧ (Command.handle cfg fs ms (.pluginActivated true)).sent = [Command.attached true]
      ∧ (Command.handle cfg fs ms (.pluginActivated false)).events = []
      ∧ (Command.handle cfg fs ms (.pluginActivated true)).events = [] := by
  by_cases h : cfg.exit_with_plugin = true <;> simp [Command.handle, h]

/-- C9 counterexample: in `src/handler/src/listener/media_controls.rs`
the misuse cases are assertion failures (panics), not `AlreadyAttached` /
`AlreadyDetached` error returns, so the claim fails for that listener. -/
theorem attach_misuse_aborts_cx :
    listenerControlsAttach true = CallOutcome.aborted
      ∧ listenerControlsAttach true ≠ CallOutcome.err ControlsError.alreadyAttached true
      ∧ listenerControlsDetach false = CallOutcome.aborted
      ∧ listenerControlsDetach false ≠ CallOutcome.err ControlsError.alreadyDetached false := by
  decide

/-- C9 (amended): the `Controls` of `src/handler/src/media_controls.rs`
fails with `AlreadyAttached` on attach-while-attached and with
`AlreadyDetached` on detach-while-detached, leaving the state unchanged,
and succeeds in the proper states; the `Controls` of
`src/handler/src/listener/media_controls.rs` instead panics on the same
misuses. -/
theorem controls_attach_detach_errors :
    controlsAttach true = CallOutcome.err ControlsError.alreadyAttached true
      ∧ controlsDetach false = CallOutcome.err ControlsError.alreadyDetached false
      ∧ controlsAttach false = CallOutcome.ok true
      ∧ controlsDetach true = CallOutcome.ok false
      ∧ listenerControlsAttach true = CallOutcome.aborted
      ∧ listenerControlsDetach false = CallOutcome.aborted := by
  decide

/-- C10: a newly constructed registry (`List::new`, via `Default`) holds
zero listeners; on the empty registry `attached()` is vacuously true and
`attach()` / `detach()` succeed performing no calls. -/
theorem empty_registry_vacuous :
    Registry.new = ([] : List Member)
      ∧ Registry.new.length = 0
      ∧ Registry.attached Registry.new = true
      ∧ Registry.attach Registry.new = ⟨[], [], none⟩
      ∧ Registry.detach Registry.new = ⟨[], [], none⟩ := by
  decide

/-- C2 counterexample: with members `c` (failing metadata) then `a`,
delivering a metadata command followed by a volume command: the error is
logged and the loop continues (member `a` receives the later volume
call), but member `a` never receives the metadata command that failed on
`c`, contradicting the claim that the remaining listeners still receive
that command. -/
theorem listener_error_stops_fanout_cx :
    (listen_until_exit cfgDS fsSample [mFailMeta, mAtt]
        [Command.metadata mdSong, Command.volume 7] 5).log
      = ["failed to set metadata: c"]
      ∧ Event.metadata "a" mdSong ∉ (listen_until_exit cfgDS fsSample [mFailMeta, mAtt]
          [Command.metadata mdSong, Command.volume 7] 5).events
      ∧ Event.volume "a" 7 ∈ (listen_until_exit cfgDS fsSample [mFailMeta, mAtt]
          [Command.metadata mdSong, Command.volume 7] 5).events := by
  decide

/-- C2 (amended): an error returned by one listener's handling of a
command is logged and the bus continues — the dispatch loop processes the
remaining queue and never terminates because of the error — but the
fan-out of the failing command stops at the first failing listener: the
members after it do not receive that command. -/
theorem listener_error_logged_loop_continues
    (cfg : Config) (fs : FsState) (pre : List Member) (m : Member)
    (rest : List Member) (md : OwnedMetadata) (q : List Command) (fuel : Nat)
    (hpre : ∀ x ∈ pre, x.failMetadata = false) (hm : m.failMetadata = true) :
    (Command.handle cfg fs (pre ++ m :: rest) (.metadata md)).events
        = (pre.map (fun x => Event.metadata x.name md)) ++ [Event.metadata m.name md]
      ∧ (Command.handle cfg fs (pre ++ m :: rest) (.metadata md)).members
          = pre ++ m :: rest
      ∧ (listen_until_exit cfg fs (pre ++ m :: rest)
            (Command.metadata md :: q) (fuel + 1)).events
          = ((pre.map (fun x => Event.metadata x.name md)) ++ [Event.metadata m.name md])
            ++ (listen_until_exit cfg fs (pre ++ m :: rest) q fuel).events
      ∧ (listen_until_exit cfg fs (pre ++ m :: rest)
            (Command.metadata md :: q) (fuel + 1)).log
          = ("failed to set metadata: " ++ m.name)
            :: (listen_until_exit cfg fs (pre ++ m :: rest) q fuel).log := by
  have hchar := Registry.metadata_fail pre m rest md hpre hm
  have hhandle : Command.handle cfg fs (pre ++ m :: rest) (.metadata md)
      = ⟨pre ++ m :: rest,
         (pre.map (fun x => Event.metadata x.name md)) ++ [Event.metadata m.name md],
         [], some ("failed to set metadata: " ++ m.name)⟩ := by
    simp [Command.handle, hchar]
  refine ⟨by rw [hhandle], by rw [hhandle], ?_, ?_⟩
  · simp [listen_until_exit, hhandle]
  · simp [listen_until_exit, hhandle]

/-- C2 witness: instance of the amended theorem with a concrete failing
member between two healthy ones. -/
theorem listener_error_logged_loop_continues_witness :
    mAtt.failMetadata = false
      ∧ mFailMeta.failMetadata = true
      ∧ (listen_until_exit cfgDS fsSample ([mAtt] ++ mFailMeta :: [mDet])
            (Command.metadata mdSong :: [Command.volume 7]) (3 + 1)).events
          = (([mAtt].map (fun x => Event.metadata x.name mdSong))
              ++ [Event.metadata mFailMeta.name mdSong])
            ++ (listen_until_exit cfgDS fsSample ([mAtt] ++ mFailMeta :: [mDet])
                  [Command.volume 7] 3).events :=
  ⟨by decide, by decide,
   (listener_error_logged_loop_continues cfgDS fsSample [mAtt] mFailMeta [mDet]
      mdSong [Command.volume 7] 3 (by decide) (by decide)).2.2.1⟩

/-- C3: order preservation.  Processing a queue that starts with a block
`cs` of submitted commands (containing no `Exit`) delivers, to every
member, first exactly the calls of the block — in block order, since the
block's trace is the sequential concatenation computed by
`processPrefix` — and only then the calls of everything processed later
(the rest of the queue followed by the handler-generated commands, which
join at the back of the FIFO queue).  Hence if command A is submitted
before command B, every member observes all of A's calls before any of
B's. -/
theorem submission_order_preserved (cfg : Config) (fs : FsState) (ms : List Member)
    (cs q : List Command) (n : String) (fuel : Nat)
    (hexit : Command.exit ∉ cs) (hfuel : cs.length ≤ fuel) :
    memberCalls n (listen_until_exit cfg fs ms (cs ++ q) fuel).events
      = memberCalls n (processPrefix cfg fs ms cs).1.events
        ++ memberCalls n (listen_until_exit cfg fs
             (processPrefix cfg fs ms cs).1.members
             (q ++ (processPrefix cfg fs ms cs).2) (fuel - cs.length)).events := by
  rw [listen_append cfg fs cs ms q fuel hexit hfuel]
  simp [memberCalls, List.filter_append]

/-- C3 witness: instance of the order-preservation theorem on a concrete
two-command submission. -/
theorem submission_order_preserved_witness :
    Command.exit ∉ csW ∧ csW.length ≤ 2
      ∧ memberCalls "a" (listen_until_exit cfgDS fsSample [mAtt] (csW ++ []) 2).events
        = memberCalls "a" (processPrefix cfgDS fsSample [mAtt] csW).1.events
          ++ memberCalls "a" (listen_until_exit cfgDS fsSample
               (processPrefix cfgDS fsSample [mAtt] csW).1.members
               ([] ++ (processPrefix cfgDS fsSample [mAtt] csW).2)
               (2 - csW.length)).events :=
  ⟨by decide, by decide,
   submission_order_preserved cfgDS fsSample [mAtt] csW [] "a" 2 (by decide) (by decide)⟩

/-- C5 counterexample: in the mixed state [attached `a`, detached `b`]
delivering `AttachmentRequested(false)` twice leaves the attached member
`a` with zero `detach()` calls — the `Attached(false)` arm of
`Command::handle` is guarded by the aggregate `attached()`, which is
false — contradicting the claimed one-detach-per-attached-member
behaviour. -/
theorem detach_request_dropped_cx :
    mAtt.attached = true
      ∧ ¬ countEv (Event.detach "a")
          ((Command.handle cfgDS fsSample [mAtt, mDet] (Command.attached false)).events
            ++ (Command.handle cfgDS fsSample
                  (Command.handle cfgDS fsSample [mAtt, mDet]
                    (Command.attached false)).members
                  (Command.attached false)).events) = 1 := by
  decide

/-- C5 (amended): delivering `AttachmentRequested(true)` twice in a row
yields exactly one `attach()` call per initially-detached member and
zero per initially-attached member, the second delivery performing no
calls.  The detach side is idempotent but additionally guarded by the
aggregate: when every member is attached, delivering
`AttachmentRequested(false)` twice yields exactly one `detach()` call
per member with the second delivery performing no calls; when some
member is already detached, the delivery performs no calls at all. -/
theorem attach_detach_idempotent_amended (cfg : Config) (fs : FsState)
    (ms : List Member)
    (hnd : (ms.map Member.name).Nodup)
    (hfa : ∀ m ∈ ms, m.failAttach = false)
    (hfd : ∀ m ∈ ms, m.failDetach = false) :
    (∀ m ∈ ms,
        countEv (Event.attach m.name)
          ((Command.handle cfg fs ms (Command.attached true)).events
            ++ (Command.handle cfg fs
                  (Command.handle cfg fs ms (Command.attached true)).members
                  (Command.attached true)).events)
          = if m.attached then 0 else 1)
      ∧ (Command.handle cfg fs
            (Command.handle cfg fs ms (Command.attached true)).members
            (Command.attached true)).events = []
      ∧ (Registry.attached ms = true → ∀ m ∈ ms,
          countEv (Event.detach m.name)
            ((Command.handle cfg fs ms (Command.attached false)).events
              ++ (Command.handle cfg fs
                    (Command.handle cfg fs ms (Command.attached false)).members
                    (Command.attached false)).events) = 1)
      ∧ (Command.handle cfg fs
            (Command.handle cfg fs ms (Command.attached false)).members
            (Command.attached false)).events = []
      ∧ (Registry.attached ms = false →
          (Command.handle cfg fs ms (Command.attached false)).events = []) := by
  by_cases hatt : Registry.attached ms = true
  · have hall : ∀ m ∈ ms, m.attached = true := (Registry.attached_iff ms).mp hatt
    have hfilter : ms.filter (fun m => m.attached) = ms :=
      List.filter_eq_self.mpr (fun m hm => by simp [hall m hm])
    have hDE := Registry.detach_eq ms hfd
    have hd1 : Command.handle cfg fs ms (Command.attached false)
        = ⟨ms.map setDet, ms.map (fun m => Event.detach m.name), [], none⟩ := by
      simp [Command.handle, hatt, hDE, hfilter]
    have hdet2 : ∀ x ∈ ms.map setDet, x.attached = false := by
      intro x hx
      obtain ⟨y, _, rfl⟩ := List.mem_map.mp hx
      simp
    have hd2 : (Command.handle cfg fs
        (Command.handle cfg fs ms (Command.attached false)).members
        (Command.attached false)).events = [] := by
      rw [hd1]
      exact handle_detach_events_nil cfg fs (ms.map setDet) hdet2
    have hd1ev : (Command.handle cfg fs ms (Command.attached false)).events
        = ms.map (fun m => Event.detach m.name) := by
      rw [hd1]
    refine ⟨?_, ?_, ?_, hd2, ?_⟩
    · intro m hm
      simp [Command.handle, hatt, hall m hm, countEv]
    · simp [Command.handle, hatt]
    · intro _ m hm
      have hcount := countEv_tag_filter_map Event.detach (fun m => m.attached) ms m
        (fun a b h => Event.detach.inj h) hnd hm
      rw [hfilter] at hcount
      rw [hd2, List.append_nil, hd1ev, hcount]
      simp [hall m hm]
    · intro hcontra
      rw [hatt] at hcontra
      cases hcontra
  · simp at hatt
    have hAE := Registry.attach_eq ms hfa
    have hs1 : Command.handle cfg fs ms (Command.attached true)
        = ⟨ms.map setAtt,
           (ms.filter (fun m => !m.attached)).map (fun m => Event.attach m.name),
           [Command.update], none⟩ := by
      simp [Command.handle, hatt, hAE]
    have hs2 : (Command.handle cfg fs
        (Command.handle cfg fs ms (Command.attached true)).members
        (Command.attached true)).events = [] := by
      rw [hs1]
      simp [Command.handle, Registry.attached_map_setAtt]
    have hs1ev : (Command.handle cfg fs ms (Command.attached true)).events
        = (ms.filter (fun m => !m.attached)).map (fun m => Event.attach m.name) := by
      rw [hs1]
    refine ⟨?_, hs2, ?_, ?_, ?_⟩
    · intro m hm
      have hcount := countEv_tag_filter_map Event.attach (fun m => !m.attached) ms m
        (fun a b h => Event.attach.inj h) hnd hm
      rw [hs2, List.append_nil, hs1ev, hcount]
      cases h : m.attached <;> simp [h]
    · intro hcontra
      rw [hcontra] at hatt
      cases hatt
    · have hd1 : (Command.handle cfg fs ms (Command.attached false))
          = ⟨ms, [], [], none⟩ := by
        simp [Command.handle, hatt]
      rw [hd1]
      simp [Command.handle, hatt]
    · intro _
      simp [Command.handle, hatt]

/-- C5 witness: instance of the amended idempotence theorem on the
two-member registry [attached `a`, detached `b`]: two attach requests
give the detached member exactly one attach call, and the second request
performs no calls. -/
theorem attach_detach_idempotent_amended_witness :
    ([mAtt, mDet].map Member.name).Nodup
      ∧ countEv (Event.attach mDet.name)
          ((Command.handle cfgDS fsSample [mAtt, mDet] (Command.attached true)).events
            ++ (Command.handle cfgDS fsSample
                  (Command.handle cfgDS fsSample [mAtt, mDet]
                    (Command.attached true)).members
                  (Command.attached true)).events)
        = (if mDet.attached then 0 else 1)
      ∧ (Command.handle cfgDS fsSample
            (Command.handle cfgDS fsSample [mAtt, mDet] (Command.attached true)).members
            (Command.attached true)).events = [] :=
  ⟨by decide,
   (attach_detach_idempotent_amended cfgDS fsSample [mAtt, mDet]
      (by decide) (by decide) (by decide)).1 mDet (by decide),
   (attach_detach_idempotent_amended cfgDS fsSample [mAtt, mDet]
      (by decide) (by decide) (by decide)).2.1⟩

/-- C6 counterexample: with `detach_on_stop` enabled and a detached
member, a `Paused` playback change performs no `attach()` at all — only
`Playing` triggers the attach in `Listener::playback` — so the claimed
attach-then-refresh for `Paused` does not happen. -/
theorem paused_no_attach_cx :
    cfgDS.detach_on_stop = true
      ∧ Registry.attached [mDet] = false
      ∧ Event.attach "b" ∉ (Registry.playback cfgDS fsSample [mDet] (.paused none)).events
      ∧ (Registry.playback cfgDS fsSample [mDet] (.paused none)).events
          = [Event.playbackInner "b" (.paused none)] := by
  decide

/-- C6 (amended): with `detach_on_stop` enabled, a `Playing` (not
`Paused`) playback change arriving while the aggregate is detached
attaches every detached member and immediately follows the attach with a
refresh — re-delivery of the cached metadata, playback and volume —
before the playback delta that triggered the attach is forwarded. -/
theorem playing_attach_refresh_delta (cfg : Config) (fs : FsState)
    (ms : List Member) (pos : Option Nat)
    (hds : cfg.detach_on_stop = true)
    (hatt : Registry.attached ms = false)
    (hok : ∀ m ∈ ms, m.failAttach = false ∧ m.failMetadata = false
            ∧ m.failPlayback = false ∧ m.failVolume = false) :
    (Registry.playback cfg fs ms (.playing pos)).events
        = ((ms.filter (fun m => !m.attached)).map (fun m => Event.attach m.name))
          ++ (refreshEvents fs (ms.map setAtt)
            ++ (ms.map (fun m => Event.playbackInner m.name (.playing pos))))
      ∧ ∀ m ∈ ms, m.attached = false →
          Event.attach m.name ∈ (Registry.playback cfg fs ms (.playing pos)).events := by
  have hfa : ∀ m ∈ ms, m.failAttach = false := fun m hm => (hok m hm).1
  have hAE := Registry.attach_eq ms hfa
  have hok2 : ∀ x ∈ ms.map setAtt,
      x.failMetadata = false ∧ x.failPlayback = false ∧ x.failVolume = false := by
    intro x hx
    obtain ⟨y, hy, rfl⟩ := List.mem_map.mp hx
    exact ⟨by simp [(hok y hy).2.1], by simp [(hok y hy).2.2.1], by simp [(hok y hy).2.2.2]⟩
  have hUE := Filesystem.update_eq fs (ms.map setAtt) hok2
  have hpb : ∀ x ∈ ms.map setAtt, x.failPlayback = false := fun x hx => (hok2 x hx).2.1
  have hPI := Registry.playback_inner_eq (ms.map setAtt) (.playing pos) hpb
  have haau : Registry.attach_and_update fs ms
      = ⟨ms.map setAtt,
         ((ms.filter (fun m => !m.attached)).map (fun m => Event.attach m.name))
           ++ refreshEvents fs (ms.map setAtt), none⟩ := by
    rw [Registry.attach_and_update, hAE]
    simp [hUE]
  have hev : (Registry.playback cfg fs ms (.playing pos)).events
      = ((ms.filter (fun m => !m.attached)).map (fun m => Event.attach m.name))
        ++ (refreshEvents fs (ms.map setAtt)
          ++ (ms.map (fun m => Event.playbackInner m.name (.playing pos)))) := by
    rw [Registry.playback]
    simp only [hds, if_true, hatt]
    rw [haau]
    simp [hPI, List.map_map, List.append_assoc, Function.comp]
  refine ⟨hev, ?_⟩
  intro m hm hdet
  rw [hev]
  apply List.mem_append_left
  exact List.mem_map_of_mem _ (List.mem_filter.mpr ⟨hm, by simp [hdet]⟩)

/-- C6 witness: instance of the amended theorem on a single detached
member with all communication files populated. -/
theorem playing_attach_refresh_delta_witness :
    cfgDS.detach_on_stop = true
      ∧ Registry.attached [mDet] = false
      ∧ (Registry.playback cfgDS fsSample [mDet] (.playing none)).events
        = (([mDet].filter (fun m => !m.attached)).map (fun m => Event.attach m.name))
          ++ (refreshEvents fsSample ([mDet].map setAtt)
            ++ ([mDet].map (fun m => Event.playbackInner m.name (.playing none)))) :=
  ⟨by decide, by decide,
   (playing_attach_refresh_delta cfgDS fsSample [mDet] none (by decide) (by decide)
      (by decide)).1⟩

/-- C7 counterexample: with `detach_on_stop` enabled and the mixed state
[attached `a`, detached `b`], a `Stopped` playback change performs no
`detach()` on the attached member `a` — the guard in
`Listener::playback` checks the aggregate `attached()`, which is false —
contradicting the claimed one-detach-per-attached-member behaviour. -/
theorem stop_detach_skipped_when_mixed_cx :
    cfgDS.detach_on_stop = true
      ∧ mAtt.attached = true
      ∧ Registry.attached [mAtt, mDet] = false
      ∧ ¬ countEv (Event.detach "a")
          (Registry.playback cfgDS fsSample [mAtt, mDet] .stopped).events = 1 := by
  decide

/-- C7 (amended): with `detach_on_stop` enabled and every member
attached, a `Stopped` playback change gives each member exactly one
`detach()` call, delivered before the `playback` forwarding of the
`Stopped` state; afterwards, as long as only playback changes that are
neither `Playing` nor `Paused` arrive, no `attach()` call occurs. -/
theorem stop_detach_then_playback (cfg : Config) (fs : FsState) (ms : List Member)
    (hds : cfg.detach_on_stop = true)
    (hnd : (ms.map Member.name).Nodup)
    (hfd : ∀ m ∈ ms, m.failDetach = false)
    (hatt : Registry.attached ms = true) :
    (∀ m ∈ ms, countEv (Event.detach m.name)
        (Registry.playback cfg fs ms .stopped).events = 1)
      ∧ (Registry.playback cfg fs ms .stopped).events
          = ((ms.filter (fun m => m.attached)).map (fun m => Event.detach m.name))
            ++ (Registry.playback_inner (ms.map setDet) .stopped).events
      ∧ ∀ ps : List MediaPlayback,
          (∀ p ∈ ps, isPlaying p = false ∧ isPaused p = false) →
          (playbackSeq cfg fs (Registry.playback cfg fs ms .stopped).members
              ps).2.countP isAttachEv = 0 := by
  have hall : ∀ m ∈ ms, m.attached = true := (Registry.attached_iff ms).mp hatt
  have hDE := Registry.detach_eq ms hfd
  have hres : Registry.playback cfg fs ms .stopped
      = ⟨(Registry.playback_inner (ms.map setDet) .stopped).members,
         ((ms.filter (fun m => m.attached)).map (fun m => Event.detach m.name))
           ++ (Registry.playback_inner (ms.map setDet) .stopped).events,
         (Registry.playback_inner (ms.map setDet) .stopped).err⟩ := by
    rw [Registry.playback]
    simp only [hds, if_true, hatt]
    rw [hDE]
  refine ⟨?_, by rw [hres], ?_⟩
  · intro m hm
    rw [hres]
    have hcount := countEv_tag_filter_map Event.detach (fun m => m.attached) ms m
      (fun a b h => Event.detach.inj h) hnd hm
    have hzero := Registry.playback_inner_countEv_detach (ms.map setDet) .stopped m.name
    simp only [countEv_append]
    rw [hcount, hzero]
    simp [hall m hm]
  · intro ps hps
    have hmem : (Registry.playback cfg fs ms .stopped).members
        = ms.map setDet := by
      rw [hres]
      exact Registry.playback_inner_members (ms.map setDet) .stopped
    rw [hmem]
    apply playbackSeq_no_attach
    · intro x hx
      obtain ⟨y, _, rfl⟩ := List.mem_map.mp hx
      simp
    · intro p hp
      exact ne_playing_of_isPlaying_false (hps p hp).1

/-- C7 witness: instance of the amended theorem on the single attached
member `a`, followed by another `Stopped` change which attaches
nothing. -/
theorem stop_detach_then_playback_witness :
    cfgDS.detach_on_stop = true
      ∧ Registry.attached [mAtt] = true
      ∧ countEv (Event.detach mAtt.name)
          (Registry.playback cfgDS fsSample [mAtt] .stopped).events = 1
      ∧ (playbackSeq cfgDS fsSample
            (Registry.playback cfgDS fsSample [mAtt] .stopped).members
            [MediaPlayback.stopped]).2.countP isAttachEv = 0 :=
  ⟨by decide, by decide,
   (stop_detach_then_playback cfgDS fsSample [mAtt] (by decide) (by decide)
      (by decide) (by decide)).1 mAtt (by decide),
   (stop_detach_then_playback cfgDS fsSample [mAtt] (by decide) (by decide)
      (by decide) (by decide)).2.2 [MediaPlayback.stopped] (by decide)⟩

end Mbmc
